import Mathlib

/-
Verification of the inscope scope-matching core (src/main.go).

Modelling conventions:
* Go strings are modelled as `List Char` (all inputs of interest are ASCII,
  where Go's byte-wise operations agree with the character-wise model).
* The Go standard library `net/url` parser is an external collaborator of the
  core; it is modelled as a parameter `urlParse : List Char → Option GoURL`
  (`none` = parse error), where `GoURL.hostname` is the value of Go's
  `(*url.URL).Hostname()`.  Theorems about the classification flow are proved
  for every such parser; concrete witnesses instantiate it with the
  executable stand-in `urlParseDemo` below.
* The Go standard library `regexp` engine is likewise external; the pattern
  texts produced by the repository's own `convertWildcardToRegex` are modelled
  exactly, and an executable matcher `reMatch` models `regexp.MatchString`
  (unanchored search) for the regex fragment the program generates:
  literals, `\c` escapes, `.`, `*` on a single atom, and `^` / `$` anchors.
* Mutable state (the statistics counters of `scopeChecker`) is passed and
  returned explicitly: `scopeChecker.inScope` takes and returns a `Stats`.
* The `strict` flag (global `config.strict` in Go) is an explicit argument.
-/

namespace Inscope

/-! ### Go string helpers -/

/-- Model of `unicode.IsSpace` (the predicate behind `strings.TrimSpace`). -/
def goIsSpace (c : Char) : Bool :=
  c.toNat = 9 || c.toNat = 10 || c.toNat = 11 || c.toNat = 12 || c.toNat = 13 ||
  c.toNat = 32 || c.toNat = 133 || c.toNat = 160 || c.toNat = 5760 ||
  (8192 ≤ c.toNat && c.toNat ≤ 8202) || c.toNat = 8232 || c.toNat = 8233 ||
  c.toNat = 8239 || c.toNat = 8287 || c.toNat = 12288

/-- Model of Go `strings.TrimSpace`. -/
def goTrimSpace (s : List Char) : List Char :=
  ((s.dropWhile goIsSpace).reverse.dropWhile goIsSpace).reverse

/-- Model of Go `strings.ToLower` (ASCII case mapping). -/
def goToLower (s : List Char) : List Char :=
  s.map Char.toLower

/-- Model of Go `strings.Contains hay needle` (substring search). -/
def containsSub : List Char → List Char → Bool
  | [], needle => needle.isEmpty
  | c :: t, needle => needle.isPrefixOf (c :: t) || containsSub t needle

/-- Model of Go `strings.LastIndex s ":"`-style search for a single char. -/
def lastIndexOfChar (c : Char) : List Char → Option Nat
  | [] => none
  | d :: t =>
    match lastIndexOfChar c t with
    | some i => some (i + 1)
    | none => if d = c then some 0 else none

/-- Model of Go `strings.ReplaceAll s (string c) sub` for a one-char needle. -/
def replaceChar (c : Char) (sub : List Char) : List Char → List Char
  | [] => []
  | d :: t => (if d = c then sub else [d]) ++ replaceChar c sub t

/-! ### normalizeDomain (src/main.go lines 245-261) -/

/-- Embedding of `normalizeDomain`: lowercase, trim one trailing `.`, and cut
at the last `:` unless the part before it contains another `:` or the string
starts with `[`. -/
def normalizeDomain (domain0 : List Char) : List Char :=
  let d1 := goToLower domain0
  let d2 := if d1.getLast? = some '.' then d1.dropLast else d1
  match lastIndexOfChar ':' d2 with
  | none => d2
  | some idx =>
    if ¬(d2.take idx).contains ':' ∧ ¬(d2.head? = some '[') then d2.take idx
    else d2

/-! ### isURL (src/main.go lines 230-243) -/

/-- Embedding of `isURL`: the URL-likeness heuristic, computed on the
lowercased and space-trimmed input exactly as the Go code does. -/
def isURL (s : List Char) : Bool :=
  let t := goTrimSpace (goToLower s)
  containsSub t "://".data ||
  "http:".data.isPrefixOf t ||
  "https:".data.isPrefixOf t ||
  "ftp:".data.isPrefixOf t ||
  "ws:".data.isPrefixOf t ||
  "wss:".data.isPrefixOf t ||
  t.contains '/' ||
  t.contains '?' ||
  t.contains '#'

/-! ### getHostname (src/main.go lines 211-228) -/

/-- Result of the external `net/url` parser: the value Go's
`(*url.URL).Hostname()` returns for the parsed URL. -/
structure GoURL where
  hostname : List Char
  deriving DecidableEq

/-- The scheme-defaulting step of `getHostname`: prepend `http://` when the
input has no `://`. -/
def withScheme (s : List Char) : List Char :=
  if containsSub s "://".data then s else "http://".data ++ s

/-- Embedding of `getHostname`, parameterized by the external URL parser.
`none` models the Go error return (parse failure or empty hostname). -/
def getHostname (urlParse : List Char → Option GoURL) (s : List Char) :
    Option (List Char) :=
  match urlParse (withScheme s) with
  | none => none
  | some u => if u.hostname = [] then none else some u.hostname

/-! ### convertWildcardToRegex (src/main.go lines 263-284) -/

/-- The regex metacharacters of `strings.ContainsAny(pattern, "^$[]{}()+?|\\")`. -/
def metaChars : List Char :=
  ['^', '$', '[', ']', '\x7b', '\x7d', '(', ')', '+', '?', '|', '\\']

/-- Does the line contain a regex metacharacter (pass-through test)? -/
def hasMeta (p : List Char) : Bool :=
  p.any fun c => metaChars.contains c

/-- Embedding of `convertWildcardToRegex`. -/
def convertWildcardToRegex (pattern : List Char) : List Char :=
  if hasMeta pattern then pattern
  else
    let p1 := replaceChar '.' ['\\', '.'] pattern
    let p2 := replaceChar '*' ['.', '*'] p1
    let p3 := if p2.head? = some '^' then p2 else '^' :: p2
    if p3.getLast? = some '$' then p3 else p3 ++ ['$']

/-! ### Model of Go `regexp.MatchString` for the generated fragment -/

/-- A single-character regex atom: a literal or `.`. -/
inductive RAtom where
  | lit (c : Char)
  | dot
  deriving DecidableEq

/-- A regex item: one atom, or a starred atom. -/
inductive RItem where
  | once (a : RAtom)
  | star (a : RAtom)
  deriving DecidableEq

/-- A parsed regex of the fragment: optional `^`, a sequence of items,
optional `$`. -/
structure RegexP where
  anchL : Bool
  items : List RItem
  anchR : Bool
  deriving DecidableEq

/-- Parse the body of a regex of the fragment (after any leading `^`),
returning the items and whether a terminal `$` is present.  Unsupported
metacharacters make the parse fail. -/
def parseItems : List Char → Option (List RItem × Bool)
  | [] => some ([], false)
  | ['$'] => some ([], true)
  | '\\' :: c :: '*' :: rest =>
    (parseItems rest).map fun x => (RItem.star (RAtom.lit c) :: x.1, x.2)
  | '\\' :: c :: rest =>
    (parseItems rest).map fun x => (RItem.once (RAtom.lit c) :: x.1, x.2)
  | ['\\'] => none
  | '.' :: '*' :: rest =>
    (parseItems rest).map fun x => (RItem.star RAtom.dot :: x.1, x.2)
  | '.' :: rest =>
    (parseItems rest).map fun x => (RItem.once RAtom.dot :: x.1, x.2)
  | c :: '*' :: rest =>
    if metaChars.contains c || c = '*' then none
    else (parseItems rest).map fun x => (RItem.star (RAtom.lit c) :: x.1, x.2)
  | c :: rest =>
    if metaChars.contains c || c = '*' then none
    else (parseItems rest).map fun x => (RItem.once (RAtom.lit c) :: x.1, x.2)

/-- Parse a whole regex of the fragment. -/
def parseRegex (p : List Char) : Option RegexP :=
  match p with
  | '^' :: rest => (parseItems rest).map fun x => ⟨true, x.1, x.2⟩
  | _ => (parseItems p).map fun x => ⟨false, x.1, x.2⟩

/-- Does an atom match one character? -/
def atomMatch : RAtom → Char → Bool
  | RAtom.lit d, c => c = d
  | RAtom.dot, _ => true

/-- Fuel-indexed matcher: do the items match a prefix of `s` (all of `s`
when `anchR` is set)?  The fuel only needs to exceed
`items.length + s.length`. -/
def matchCore (anchR : Bool) : Nat → List RItem → List Char → Bool
  | 0, _, _ => false
  | _ + 1, [], s => !anchR || s.isEmpty
  | _ + 1, RItem.once _ :: _, [] => false
  | f + 1, RItem.once a :: rest, c :: s =>
    atomMatch a c && matchCore anchR f rest s
  | f + 1, RItem.star a :: rest, s =>
    matchCore anchR f rest s ||
    match s with
    | [] => false
    | c :: s' => atomMatch a c && matchCore anchR f (RItem.star a :: rest) s'

/-- Match a parsed regex against a string, Go `MatchString` style: a `^`
anchors the match at the start, otherwise every start position is tried. -/
def reMatchItems (r : RegexP) (s : List Char) : Bool :=
  if r.anchL then matchCore r.anchR (r.items.length + s.length + 1) r.items s
  else s.tails.any fun t => matchCore r.anchR (r.items.length + s.length + 1) r.items t

/-- Model of `regexp.MatchString pat s` for the generated fragment. -/
def reMatch (pat s : List Char) : Bool :=
  match parseRegex pat with
  | some r => reMatchItems r s
  | none => false

/-! ### scopeChecker and inScope (src/main.go lines 27-36 and 46-100) -/

/-- A compiled pattern: the text `(*regexp.Regexp).String()` reports (the
compiled source) and the matcher `MatchString`. -/
structure Pattern where
  text : List Char
  accept : List Char → Bool

/-- The statistics counters of `scopeChecker.stats`. -/
structure Stats where
  total : Nat
  inScope : Nat
  outScope : Nat
  deriving DecidableEq

/-- The immutable part of `scopeChecker`: include patterns and exclude
(anti-) patterns, in scope-file order. -/
structure scopeChecker where
  patterns : List Pattern
  antipatterns : List Pattern

/-- The domain-resolution step of `inScope` (lines 51-66): extract a hostname
from URL-like input; `none` models the strict-mode early return. -/
def resolveDomain (strict : Bool) (urlParse : List Char → Option GoURL)
    (input : List Char) : Option (List Char) :=
  if isURL input then
    match getHostname urlParse input with
    | some h => some h
    | none => if strict then none else some input
  else some input

/-- Embedding of `(*scopeChecker).inScope`: returns the verdict, the matched
label, and the updated statistics. -/
def scopeChecker.inScope (strict : Bool) (urlParse : List Char → Option GoURL)
    (s : scopeChecker) (st : Stats) (input : List Char) :
    Bool × List Char × Stats :=
  let st1 : Stats := ⟨st.total + 1, st.inScope, st.outScope⟩
  match resolveDomain strict urlParse input with
  | none => (false, [], st1)
  | some d =>
    let domain := normalizeDomain d
    let firstInc := s.patterns.find? fun p => p.accept domain
    let matchedPattern := match firstInc with
      | some p => p.text
      | none => ([] : List Char)
    match s.antipatterns.find? fun p => p.accept domain with
    | some p => (false, '!' :: p.text, ⟨st1.total, st1.inScope, st1.outScope + 1⟩)
    | none =>
      if firstInc.isSome then
        (true, matchedPattern, ⟨st1.total, st1.inScope + 1, st1.outScope⟩)
      else
        (false, matchedPattern, ⟨st1.total, st1.inScope, st1.outScope + 1⟩)

/-! ### newScopeChecker (src/main.go lines 102-149) -/

/-- Construction errors of `newScopeChecker`: an invalid pattern (with line
number and offending text) or an empty include list. -/
inductive ScopeError where
  | invalidPattern (lineNum : Nat) (line : List Char)
  | noPatterns

/-- The scan loop of `newScopeChecker`, parameterized by the external
`regexp.Compile` (`none` = compilation error, `some f` = compiled matcher). -/
def buildPatterns (compile : List Char → Option (List Char → Bool)) :
    List (List Char) → Nat → List Pattern → List Pattern →
    Except ScopeError scopeChecker
  | [], _, pats, antis =>
    if pats.isEmpty then Except.error ScopeError.noPatterns
    else Except.ok ⟨pats, antis⟩
  | l :: rest, n, pats, antis =>
    let lineNum := n + 1
    let line := goTrimSpace l
    if line = [] ∨ line.head? = some '#' then
      buildPatterns compile rest lineNum pats antis
    else
      let isAnti := line.head? = some '!'
      let line1 := if line.head? = some '!' then goTrimSpace (line.drop 1) else line
      let pat := convertWildcardToRegex line1
      match compile pat with
      | none => Except.error (ScopeError.invalidPattern lineNum line1)
      | some f =>
        if isAnti then
          buildPatterns compile rest lineNum pats (antis ++ [⟨pat, f⟩])
        else
          buildPatterns compile rest lineNum (pats ++ [⟨pat, f⟩]) antis

/-- Embedding of `newScopeChecker` on a pattern-file stream given as a list
of lines (read errors of the stream are outside the model). -/
def newScopeChecker (compile : List Char → Option (List Char → Bool))
    (lines : List (List Char)) : Except ScopeError scopeChecker :=
  buildPatterns compile lines 0 [] []

/-- Is a construction result a success? -/
def builtOk : Except ScopeError scopeChecker → Bool
  | Except.ok _ => true
  | Except.error _ => false

/-! ### Executable stand-ins for the external collaborators -/

/-- Everything after the first `://` of a string (empty if none). -/
def afterScheme : List Char → List Char
  | ':' :: '/' :: '/' :: rest => rest
  | _ :: rest => afterScheme rest
  | [] => []

/-- Executable stand-in for the external `net/url` parser followed by
`Hostname()`, used to instantiate `urlParse` in concrete witnesses: the part
between `://` and the first `/`, `?` or `#` is the authority; a space in it
is a parse error (as in Go); `Hostname()` strips a `:port` and IPv6 brackets. -/
def urlParseDemo (s : List Char) : Option GoURL :=
  let rest := afterScheme s
  let auth := rest.takeWhile fun c => c ≠ '/' ∧ c ≠ '?' ∧ c ≠ '#'
  if auth.contains ' ' then none
  else
    let host :=
      if auth.head? = some '[' then (auth.drop 1).takeWhile (· ≠ ']')
      else auth.takeWhile (· ≠ ':')
    some ⟨host⟩

/-- Executable stand-in for `regexp.Compile`, used to instantiate `compile`
in concrete witnesses: every pattern compiles, to the model matcher. -/
def compileDemo (pat : List Char) : Option (List Char → Bool) :=
  some (reMatch pat)

end Inscope

namespace Inscope

/-! ### Character-level lemmas about the ASCII case mapping -/

theorem char_toNat_ofNat_of_lt (m : Nat) (h : m < 55296) :
    (Char.ofNat m).toNat = m := by
  rw [Char.ofNat, dif_pos (Or.inl h)]
  rfl

theorem char_toLower_def :
    Char.toLower =
      fun c => if c.toNat ≥ 65 ∧ c.toNat ≤ 90 then Char.ofNat (c.toNat + 32) else c :=
  rfl

theorem toNat_toLower (c : Char) :
    (Char.toLower c).toNat =
      if 65 ≤ c.toNat ∧ c.toNat ≤ 90 then c.toNat + 32 else c.toNat := by
  rw [char_toLower_def]
  by_cases h : 65 ≤ c.toNat ∧ c.toNat ≤ 90
  · simp only [ge_iff_le, if_pos h]
    exact char_toNat_ofNat_of_lt (c.toNat + 32) (by omega)
  · simp only [ge_iff_le, if_neg h]

theorem char_eq_of_toNat_eq {c d : Char} (h : c.toNat = d.toNat) : c = d := by
  apply Char.ext
  exact UInt32.ext h

theorem toLower_eq_self_of_small (c : Char) (h : ¬(65 ≤ c.toNat ∧ c.toNat ≤ 90)) :
    Char.toLower c = c := by
  rw [char_toLower_def]
  simp only [ge_iff_le, if_neg h]

theorem toLower_eq_iff_small {c d : Char} (hd : d.toNat < 65) :
    Char.toLower c = d ↔ c = d := by
  constructor
  · intro h
    by_cases hc : 65 ≤ c.toNat ∧ c.toNat ≤ 90
    · exfalso
      have h1 : (Char.toLower c).toNat = c.toNat + 32 := by
        rw [toNat_toLower, if_pos hc]
      rw [h] at h1
      omega
    · rwa [toLower_eq_self_of_small c hc] at h
  · intro h
    subst h
    exact toLower_eq_self_of_small c (by omega)

theorem goIsSpace_toLower (c : Char) : goIsSpace (Char.toLower c) = goIsSpace c := by
  rw [Bool.eq_iff_iff]
  simp only [goIsSpace, Bool.or_eq_true, Bool.and_eq_true, decide_eq_true_eq,
    toNat_toLower]
  by_cases h : 65 ≤ c.toNat ∧ c.toNat ≤ 90
  · rw [if_pos h]
    omega
  · rw [if_neg h]

/-! ### Lowercasing commutes with the other string operations -/

theorem contains_goToLower (s : List Char) (c : Char) (hc : c.toNat < 65) :
    (goToLower s).contains c = s.contains c := by
  rw [Bool.eq_iff_iff]
  simp only [goToLower, List.contains, List.elem_iff, List.mem_map]
  constructor
  · rintro ⟨d, hd, heq⟩
    rwa [(toLower_eq_iff_small hc).mp heq] at hd
  · intro h
    exact ⟨c, h, toLower_eq_self_of_small c (by omega)⟩

theorem isPrefixOf_goToLower (n : List Char) (hn : ∀ c ∈ n, c.toNat < 65) :
    ∀ s : List Char, n.isPrefixOf (goToLower s) = n.isPrefixOf s := by
  induction n with
  | nil => intro s; simp [List.isPrefixOf]
  | cons a as ih =>
    intro s
    cases s with
    | nil => simp [goToLower, List.isPrefixOf]
    | cons b bs =>
      have ha : a.toNat < 65 := hn a (by simp)
      simp only [goToLower, List.map_cons, List.isPrefixOf]
      have h1 : (a == Char.toLower b) = (a == b) := by
        rw [Bool.eq_iff_iff]
        simp only [beq_iff_eq]
        constructor
        · intro h; exact ((toLower_eq_iff_small ha).mp h.symm).symm
        · intro h; subst h; exact (toLower_eq_self_of_small a (by omega)).symm
      have h2 := ih (fun c hc => hn c (by simp [hc])) bs
      simp only [goToLower] at h2
      rw [h1, h2]

theorem containsSub_goToLower (s n : List Char) (hn : ∀ c ∈ n, c.toNat < 65) :
    containsSub (goToLower s) n = containsSub s n := by
  induction s with
  | nil => rfl
  | cons c t ih =>
    simp only [goToLower, List.map_cons, containsSub]
    simp only [goToLower] at ih
    rw [ih]
    have h1 := isPrefixOf_goToLower n hn (c :: t)
    simp only [goToLower, List.map_cons] at h1
    rw [h1]

theorem dropWhile_goIsSpace_goToLower (l : List Char) :
    (goToLower l).dropWhile goIsSpace = goToLower (l.dropWhile goIsSpace) := by
  have hfun : (goIsSpace ∘ Char.toLower) = goIsSpace := by
    funext c
    exact goIsSpace_toLower c
  rw [goToLower, List.dropWhile_map, hfun, goToLower]

theorem goTrimSpace_goToLower (s : List Char) :
    goTrimSpace (goToLower s) = goToLower (goTrimSpace s) := by
  have hfun : (goIsSpace ∘ Char.toLower) = goIsSpace := funext goIsSpace_toLower
  simp only [goTrimSpace, goToLower, List.dropWhile_map, hfun, ← List.map_reverse]

end Inscope

namespace Inscope

/-! ### find? lemmas shared by the classification theorems -/

theorem find?_none_of_all {α} (l : List α) (f : α → Bool)
    (h : ∀ x ∈ l, f x = false) : l.find? f = none :=
  List.find?_eq_none.mpr fun x hx => by simp [h x hx]

theorem find?_first {α} (l1 : List α) (l2 : List α) (p : α) (f : α → Bool)
    (h1 : ∀ x ∈ l1, f x = false) (hp : f p = true) :
    (l1 ++ p :: l2).find? f = some p := by
  induction l1 with
  | nil => exact List.find?_cons_of_pos l2 hp
  | cons a t ih =>
    rw [List.cons_append, List.find?_cons_of_neg _ (by simp [h1 a (by simp)])]
    exact ih fun x hx => h1 x (by simp [hx])

/-! ### Lemmas about replaceChar and convertWildcardToRegex -/

theorem mem_replaceChar {c a : Char} {sub : List Char} :
    ∀ {l : List Char}, c ∈ replaceChar a sub l → c ∈ sub ∨ c ∈ l := by
  intro l
  induction l with
  | nil => intro h; cases h
  | cons d t ih =>
    intro h
    simp only [replaceChar, List.mem_append] at h
    rcases h with h | h
    · by_cases hd : d = a
      · rw [if_pos hd] at h
        exact Or.inl h
      · rw [if_neg hd] at h
        simp only [List.mem_singleton] at h
        exact Or.inr (by simp [h])
    · rcases ih h with h' | h'
      · exact Or.inl h'
      · exact Or.inr (by simp [h'])

theorem not_mem_of_hasMeta_false {p : List Char} (h : hasMeta p = false)
    {c : Char} (hc : c ∈ metaChars) : c ∉ p := by
  intro hmem
  have h2 : ∀ x ∈ p, x ∉ metaChars := by
    simpa [hasMeta, List.any_eq_false, List.contains, List.elem_iff] using h
  exact h2 c hmem hc

/-- The wildcard compilation described by the specification: escape each
literal `.` to `\.`, expand each `*` to `.*`, then anchor with a leading `^`
and a trailing `$`. -/
def wildcardSpecCompile (p : List Char) : List Char :=
  '^' :: (replaceChar '*' ['.', '*'] (replaceChar '.' ['\\', '.'] p) ++ ['$'])

theorem convert_hasMeta {p : List Char} (h : hasMeta p = true) :
    convertWildcardToRegex p = p := by
  rw [convertWildcardToRegex, if_pos h]

theorem convert_noMeta {p : List Char} (h : hasMeta p = false) :
    convertWildcardToRegex p = wildcardSpecCompile p := by
  have hcaret : '^' ∉ replaceChar '*' ['.', '*'] (replaceChar '.' ['\\', '.'] p) := by
    intro hmem
    rcases mem_replaceChar hmem with h1 | h1
    · simp at h1
    · rcases mem_replaceChar h1 with h2 | h2
      · simp at h2
      · exact not_mem_of_hasMeta_false h (by decide) h2
  have hdollar : '$' ∉ replaceChar '*' ['.', '*'] (replaceChar '.' ['\\', '.'] p) := by
    intro hmem
    rcases mem_replaceChar hmem with h1 | h1
    · simp at h1
    · rcases mem_replaceChar h1 with h2 | h2
      · simp at h2
      · exact not_mem_of_hasMeta_false h (by decide) h2
  have hhead :
      (replaceChar '*' ['.', '*'] (replaceChar '.' ['\\', '.'] p)).head? ≠ some '^' := by
    intro hh
    exact hcaret (List.mem_of_mem_head? hh)
  have hlast :
      ('^' :: replaceChar '*' ['.', '*'] (replaceChar '.' ['\\', '.'] p)).getLast?
        ≠ some '$' := by
    intro hh
    have hm := List.mem_of_mem_getLast? hh
    rw [List.mem_cons] at hm
    rcases hm with h1 | h1
    · exact absurd h1 (by decide)
    · exact hdollar h1
  simp only [convertWildcardToRegex, h, Bool.false_eq_true, if_false, hhead, hlast,
    wildcardSpecCompile, List.cons_append]

end Inscope

namespace Inscope

/-! ### Lemmas about the regexp-model matcher -/

theorem matchCore_mono {anchR : Bool} :
    ∀ {f f' : Nat} {items : List RItem} {s : List Char}, f ≤ f' →
      matchCore anchR f items s = true → matchCore anchR f' items s = true := by
  intro f
  induction f with
  | zero =>
    intro f' items s _ hm
    simp [matchCore] at hm
  | succ g ih =>
    intro f' items s hle hm
    cases f' with
    | zero => omega
    | succ g' =>
      have hg : g ≤ g' := by omega
      cases items with
      | nil =>
        simpa [matchCore] using hm
      | cons it rest =>
        cases it with
        | once a =>
          cases s with
          | nil => simp [matchCore] at hm
          | cons c s' =>
            simp only [matchCore, Bool.and_eq_true] at hm ⊢
            exact ⟨hm.1, ih hg hm.2⟩
        | star a =>
          simp only [matchCore, Bool.or_eq_true] at hm ⊢
          rcases hm with hm | hm
          · exact Or.inl (ih hg hm)
          · right
            cases s with
            | nil => simp at hm
            | cons c s' =>
              simp only [Bool.and_eq_true] at hm ⊢
              exact ⟨hm.1, ih hg hm.2⟩

theorem matchCore_append :
    ∀ {f : Nat} {items : List RItem} {s v : List Char},
      matchCore false f items s = true → matchCore false f items (s ++ v) = true := by
  intro f
  induction f with
  | zero =>
    intro items s v hm
    simp [matchCore] at hm
  | succ g ih =>
    intro items s v hm
    cases items with
    | nil => simp [matchCore]
    | cons it rest =>
      cases it with
      | once a =>
        cases s with
        | nil => simp [matchCore] at hm
        | cons c s' =>
          simp only [List.cons_append, matchCore, Bool.and_eq_true] at hm ⊢
          exact ⟨hm.1, ih hm.2⟩
      | star a =>
        simp only [matchCore, Bool.or_eq_true] at hm ⊢
        rcases hm with hm | hm
        · exact Or.inl (ih hm)
        · right
          cases s with
          | nil => simp at hm
          | cons c s' =>
            simp only [List.cons_append, Bool.and_eq_true] at hm ⊢
            exact ⟨hm.1, ih hm.2⟩

/-- An unanchored pattern of the model accepts every superstring of an
accepted string (the substring-search semantics of `MatchString`). -/
theorem reMatch_infix {pat s t : List Char} {r : RegexP}
    (hp : parseRegex pat = some r) (hL : r.anchL = false) (hR : r.anchR = false)
    (hs : reMatch pat s = true) (hinf : s <:+: t) : reMatch pat t = true := by
  rw [reMatch, hp] at hs ⊢
  simp only [reMatchItems, hL, Bool.false_eq_true, if_false] at hs ⊢
  rw [List.any_eq_true] at hs ⊢
  obtain ⟨s0, hs0mem, hs0⟩ := hs
  have hs0suf : s0 <:+ s := (List.mem_tails _ _).mp hs0mem
  obtain ⟨w, hw⟩ := hs0suf
  obtain ⟨u, v, huv⟩ := hinf
  refine ⟨s0 ++ v, ?_, ?_⟩
  · rw [List.mem_tails _ _]
    exact ⟨u ++ w, by rw [← huv, ← hw]; simp⟩
  · rw [hR] at hs0 ⊢
    have h1 := matchCore_append (v := v) hs0
    have hlen : s.length ≤ t.length := List.IsInfix.length_le ⟨u, v, huv⟩
    exact matchCore_mono (by omega) h1

/-! ### Claim C4: wildcard pattern compilation -/

/-- C4: a line containing one of the characters `^ $ [ ] { } ( ) + ? | \` is
passed through unmodified; any other line has each `.` escaped to `\.`, each
`*` expanded to `.*`, and is anchored with a leading `^` and a trailing `$`;
consequently the compiled `*.example.com` matches `foo.example.com` but not
`example.com`. -/
theorem C4_wildcard_compilation :
    (∀ p : List Char, hasMeta p = true → convertWildcardToRegex p = p) ∧
    (∀ p : List Char, hasMeta p = false →
      convertWildcardToRegex p = wildcardSpecCompile p) ∧
    reMatch (convertWildcardToRegex "*.example.com".data) "foo.example.com".data
      = true ∧
    reMatch (convertWildcardToRegex "*.example.com".data) "example.com".data
      = false :=
  ⟨fun _ h => convert_hasMeta h, fun _ h => convert_noMeta h, by decide, by decide⟩

/-- Witness for C4: both branches of the compilation at concrete lines. -/
theorem C4_wildcard_compilation_witness :
    convertWildcardToRegex "a[b".data = "a[b".data ∧
    convertWildcardToRegex "*.example.com".data
      = wildcardSpecCompile "*.example.com".data :=
  ⟨C4_wildcard_compilation.1 "a[b".data (by decide),
   C4_wildcard_compilation.2.1 "*.example.com".data (by decide)⟩

/-! ### Claim C5: domain normalization -/

/-- The normalization described by the specification: lowercase the whole
string, strip one trailing `.`, and strip a trailing `:port` suffix only when
the substring before the last colon contains no other colon and the string
does not start with `[`. -/
def normalizeDomainSpec (domain0 : List Char) : List Char :=
  let lowered := goToLower domain0
  let dotless := if lowered.getLast? = some '.' then lowered.dropLast else lowered
  match lastIndexOfChar ':' dotless with
  | none => dotless
  | some idx =>
    if (dotless.take idx).contains ':' = false ∧ dotless.head? ≠ some '[' then
      dotless.take idx
    else dotless

/-- C5: `normalizeDomain` implements exactly the normalization described by
the specification, and in particular leaves `[::1]:8080` unchanged. -/
theorem C5_normalization :
    (∀ s : List Char, normalizeDomain s = normalizeDomainSpec s) ∧
    normalizeDomain "[::1]:8080".data = "[::1]:8080".data := by
  constructor
  · intro s
    simp only [normalizeDomain, normalizeDomainSpec]
    cases lastIndexOfChar ':'
        (if (goToLower s).getLast? = some '.' then (goToLower s).dropLast
         else goToLower s) with
    | none => rfl
    | some idx =>
      apply if_congr _ rfl rfl
      constructor
      · rintro ⟨h1, h2⟩
        refine ⟨?_, h2⟩
        rcases Bool.eq_false_or_eq_true
            ((List.take idx
              (if (goToLower s).getLast? = some '.' then (goToLower s).dropLast
               else goToLower s)).contains ':') with hb | hb
        · exact absurd hb h1
        · exact hb
      · rintro ⟨h1, h2⟩
        refine ⟨?_, h2⟩
        intro hc
        rw [h1] at hc
        cases hc
  · decide

/-! ### Claim C9: pass-through patterns match as substrings -/

/-- C9: a line containing a regex metacharacter is compiled with no anchors
added (the pattern text is the line itself); in the matcher model an
unanchored pattern accepts every superstring of an accepted string, so the
pass-through pattern `example\.com` accepts `badexample.com.evil.net`, while
the metacharacter-free wildcard line `example.com` is anchored and must match
the entire normalized domain. -/
theorem C9_passthrough_substring :
    (∀ p : List Char, hasMeta p = true → convertWildcardToRegex p = p) ∧
    (∀ (pat s t : List Char) (r : RegexP),
      parseRegex pat = some r → r.anchL = false → r.anchR = false →
      reMatch pat s = true → s <:+: t → reMatch pat t = true) ∧
    ((parseRegex "example\\.com".data).map fun r => (r.anchL, r.anchR))
      = some (false, false) ∧
    reMatch "example\\.com".data "badexample.com.evil.net".data = true ∧
    reMatch (convertWildcardToRegex "example.com".data)
      "badexample.com.evil.net".data = false ∧
    reMatch (convertWildcardToRegex "example.com".data) "example.com".data
      = true :=
  ⟨fun _ h => convert_hasMeta h,
   fun _ _ _ _ hp hL hR hs hinf => reMatch_infix hp hL hR hs hinf,
   by decide, by decide, by decide, by decide⟩

/-- Witness for C9: the pass-through branch and the substring-extension
property at concrete inputs. -/
theorem C9_passthrough_substring_witness :
    convertWildcardToRegex "example\\.com".data = "example\\.com".data ∧
    reMatch "ab".data "xaby".data = true :=
  ⟨C9_passthrough_substring.1 "example\\.com".data (by decide),
   C9_passthrough_substring.2.1 "ab".data "ab".data "xaby".data
     ⟨false, [RItem.once (RAtom.lit 'a'), RItem.once (RAtom.lit 'b')], false⟩
     (by decide) rfl rfl (by decide) ⟨"x".data, "y".data, by decide⟩⟩

/-! ### Claim C6: construction fails without include patterns -/

theorem buildPatterns_no_includes
    (compile : List Char → Option (List Char → Bool)) :
    ∀ (lines : List (List Char)) (n : Nat) (antis : List Pattern),
      (∀ l ∈ lines, goTrimSpace l = [] ∨ (goTrimSpace l).head? = some '#' ∨
        (goTrimSpace l).head? = some '!') →
      builtOk (buildPatterns compile lines n [] antis) = false := by
  intro lines
  induction lines with
  | nil => intro n antis _; rfl
  | cons l rest ih =>
    intro n antis h
    have hrest : ∀ x ∈ rest, goTrimSpace x = [] ∨ (goTrimSpace x).head? = some '#' ∨
        (goTrimSpace x).head? = some '!' :=
      fun x hx => h x (by simp [hx])
    rcases h l (by simp) with h1 | h1 | h1
    · simp only [buildPatterns]
      rw [if_pos (Or.inl h1)]
      exact ih (n + 1) antis hrest
    · simp only [buildPatterns]
      rw [if_pos (Or.inr h1)]
      exact ih (n + 1) antis hrest
    · have hne : goTrimSpace l ≠ [] := by
        intro h2
        rw [h2] at h1
        cases h1
      have hnh : (goTrimSpace l).head? ≠ some '#' := by
        intro h2
        rw [h1] at h2
        cases h2
      simp only [buildPatterns]
      rw [if_neg (by rintro (h2 | h2); exact hne h2; exact hnh h2)]
      simp only [h1, if_true]
      cases hc : compile (convertWildcardToRegex (goTrimSpace ((goTrimSpace l).drop 1))) with
      | none => rfl
      | some f =>
        exact ih (n + 1) (antis ++ [⟨convertWildcardToRegex
          (goTrimSpace ((goTrimSpace l).drop 1)), f⟩]) hrest

/-- C6: a pattern-file line stream in which every surviving line (after
skipping blanks and `#` comments) carries a leading `!` makes
`newScopeChecker` return an error instead of a checker. -/
theorem C6_no_includes_error (compile : List Char → Option (List Char → Bool))
    (lines : List (List Char))
    (h : ∀ l ∈ lines, goTrimSpace l = [] ∨ (goTrimSpace l).head? = some '#' ∨
      (goTrimSpace l).head? = some '!') :
    builtOk (newScopeChecker compile lines) = false :=
  buildPatterns_no_includes compile lines 0 [] h

/-- Witness for C6: the file containing only the exclude line `!evil.com`. -/
theorem C6_no_includes_error_witness :
    builtOk (newScopeChecker compileDemo ["!evil.com".data]) = false :=
  C6_no_includes_error compileDemo ["!evil.com".data] (by decide)

/-! ### Claim C1: exclusion always overrides inclusion -/

/-- C1: when the domain resolves (no strict-mode failure) and the normalized
domain is accepted by an exclude pattern, `inScope` returns `false` with
label `!` plus the first matching exclude pattern's text and counts the input
out of scope — for every include list and for every tail of exclude patterns
behind the first match (those are never consulted). -/
theorem C1_exclusion_overrides (strict : Bool)
    (urlParse : List Char → Option GoURL) (pats l1 l2 : List Pattern)
    (p : Pattern) (st : Stats) (input d : List Char)
    (hres : resolveDomain strict urlParse input = some d)
    (h1 : ∀ q ∈ l1, q.accept (normalizeDomain d) = false)
    (hp : p.accept (normalizeDomain d) = true) :
    scopeChecker.inScope strict urlParse ⟨pats, l1 ++ p :: l2⟩ st input
      = (false, '!' :: p.text, ⟨st.total + 1, st.inScope, st.outScope + 1⟩) := by
  have hanti : (l1 ++ p :: l2).find? (fun q => q.accept (normalizeDomain d))
      = some p := find?_first l1 l2 p _ h1 hp
  simp only [scopeChecker.inScope, hres, hanti]

/-- Witness for C1: the specification's own example, includes
`*.example.com`, excludes `admin.example.com`, input `admin.example.com`. -/
theorem C1_exclusion_overrides_witness :
    scopeChecker.inScope false urlParseDemo
      ⟨[⟨convertWildcardToRegex "*.example.com".data,
         reMatch (convertWildcardToRegex "*.example.com".data)⟩],
       [⟨convertWildcardToRegex "admin.example.com".data,
         reMatch (convertWildcardToRegex "admin.example.com".data)⟩]⟩
      ⟨0, 0, 0⟩ "admin.example.com".data
      = (false, '!' :: convertWildcardToRegex "admin.example.com".data,
         ⟨0 + 1, 0, 0 + 1⟩) :=
  C1_exclusion_overrides false urlParseDemo
    [⟨convertWildcardToRegex "*.example.com".data,
      reMatch (convertWildcardToRegex "*.example.com".data)⟩]
    [] []
    ⟨convertWildcardToRegex "admin.example.com".data,
     reMatch (convertWildcardToRegex "admin.example.com".data)⟩
    ⟨0, 0, 0⟩ "admin.example.com".data "admin.example.com".data
    (by decide) (by simp) (by decide)

/-! ### Claim C7: matched-label content, first include match wins -/

/-- C7: the matched label is empty when no pattern fires (also on a
strict-mode resolution failure); when the first matching include fires and no
exclude fires, the label is that include's text, for every tail of includes
behind the first match. -/
theorem C7_matched_label :
    (∀ (strict : Bool) (urlParse : List Char → Option GoURL) (s : scopeChecker)
       (st : Stats) (input d : List Char),
       resolveDomain strict urlParse input = some d →
       (∀ q ∈ s.patterns, q.accept (normalizeDomain d) = false) →
       (∀ q ∈ s.antipatterns, q.accept (normalizeDomain d) = false) →
       scopeChecker.inScope strict urlParse s st input
         = (false, [], ⟨st.total + 1, st.inScope, st.outScope + 1⟩)) ∧
    (∀ (strict : Bool) (urlParse : List Char → Option GoURL) (s : scopeChecker)
       (st : Stats) (input : List Char),
       resolveDomain strict urlParse input = none →
       (scopeChecker.inScope strict urlParse s st input).2.1 = []) ∧
    (∀ (strict : Bool) (urlParse : List Char → Option GoURL)
       (l1 l2 antis : List Pattern) (p : Pattern) (st : Stats)
       (input d : List Char),
       resolveDomain strict urlParse input = some d →
       (∀ q ∈ l1, q.accept (normalizeDomain d) = false) →
       p.accept (normalizeDomain d) = true →
       (∀ q ∈ antis, q.accept (normalizeDomain d) = false) →
       scopeChecker.inScope strict urlParse ⟨l1 ++ p :: l2, antis⟩ st input
         = (true, p.text, ⟨st.total + 1, st.inScope + 1, st.outScope⟩)) := by
  refine ⟨?_, ?_, ?_⟩
  · intro strict urlParse s st input d hres hinc hanti
    have h1 : s.patterns.find? (fun q => q.accept (normalizeDomain d)) = none :=
      find?_none_of_all _ _ hinc
    have h2 : s.antipatterns.find? (fun q => q.accept (normalizeDomain d)) = none :=
      find?_none_of_all _ _ hanti
    simp [scopeChecker.inScope, hres, h1, h2]
  · intro strict urlParse s st input hres
    simp [scopeChecker.inScope, hres]
  · intro strict urlParse l1 l2 antis p st input d hres h1 hp hanti
    have hfind : (l1 ++ p :: l2).find? (fun q => q.accept (normalizeDomain d))
        = some p := find?_first l1 l2 p _ h1 hp
    have h2 : antis.find? (fun q => q.accept (normalizeDomain d)) = none :=
      find?_none_of_all _ _ hanti
    simp [scopeChecker.inScope, hres, hfind, h2]

/-- Witness for C7: first-match-wins on includes at concrete patterns
(`bar.com` rejects, `*.example.com` matches `foo.example.com`, a second
`bar.com` behind the match is never consulted), no exclude present. -/
theorem C7_matched_label_witness :
    scopeChecker.inScope false urlParseDemo
      ⟨[⟨convertWildcardToRegex "bar.com".data,
         reMatch (convertWildcardToRegex "bar.com".data)⟩] ++
        ⟨convertWildcardToRegex "*.example.com".data,
         reMatch (convertWildcardToRegex "*.example.com".data)⟩ ::
        [⟨convertWildcardToRegex "bar.com".data,
          reMatch (convertWildcardToRegex "bar.com".data)⟩], []⟩
      ⟨3, 1, 2⟩ "foo.example.com".data
      = (true, convertWildcardToRegex "*.example.com".data, ⟨3 + 1, 1 + 1, 2⟩) :=
  C7_matched_label.2.2 false urlParseDemo
    [⟨convertWildcardToRegex "bar.com".data,
      reMatch (convertWildcardToRegex "bar.com".data)⟩]
    [⟨convertWildcardToRegex "bar.com".data,
      reMatch (convertWildcardToRegex "bar.com".data)⟩]
    []
    ⟨convertWildcardToRegex "*.example.com".data,
     reMatch (convertWildcardToRegex "*.example.com".data)⟩
    ⟨3, 1, 2⟩ "foo.example.com".data "foo.example.com".data
    (by decide) (by decide) (by decide) (by decide)

/-! ### Claim C2: statistics invariant (corrected) -/

/-- Counterexample to C2 as stated: under `strict`, the URL-like input
`not a valid url???` fails hostname extraction and the call increments only
`total` — neither `inScope` nor `outScope` — so `total = inScope + outScope`
is broken (`1 ≠ 0 + 0`). -/
theorem C2_stats_counterexample :
    ((scopeChecker.inScope true urlParseDemo
        ⟨[⟨"^x$".data, reMatch "^x$".data⟩], []⟩ ⟨0, 0, 0⟩
        "not a valid url???".data).2.2 = ⟨1, 0, 0⟩) ∧
    (1 : Nat) ≠ 0 + 0 :=
  ⟨by decide, by decide⟩

/-- C2 (amended): every call increments `total` by exactly 1; a call whose
resolution does not fail under strict mode additionally increments exactly
one of `inScope` / `outScope` by exactly 1; a strict-mode resolution failure
increments neither. -/
theorem C2_stats_amended (strict : Bool) (urlParse : List Char → Option GoURL)
    (s : scopeChecker) (st : Stats) (input : List Char) :
    (scopeChecker.inScope strict urlParse s st input).2.2.total = st.total + 1 ∧
    (((scopeChecker.inScope strict urlParse s st input).2.2.inScope
        = st.inScope + 1 ∧
      (scopeChecker.inScope strict urlParse s st input).2.2.outScope
        = st.outScope) ∨
     ((scopeChecker.inScope strict urlParse s st input).2.2.outScope
        = st.outScope + 1 ∧
      (scopeChecker.inScope strict urlParse s st input).2.2.inScope
        = st.inScope) ∨
     (resolveDomain strict urlParse input = none ∧
      (scopeChecker.inScope strict urlParse s st input).2.2.inScope
        = st.inScope ∧
      (scopeChecker.inScope strict urlParse s st input).2.2.outScope
        = st.outScope)) := by
  cases hres : resolveDomain strict urlParse input with
  | none => simp [scopeChecker.inScope, hres]
  | some d =>
    cases hanti : s.antipatterns.find? (fun q => q.accept (normalizeDomain d)) with
    | some p => simp [scopeChecker.inScope, hres, hanti]
    | none =>
      cases hinc : s.patterns.find? (fun q => q.accept (normalizeDomain d)) with
      | some q => simp [scopeChecker.inScope, hres, hanti, hinc]
      | none => simp [scopeChecker.inScope, hres, hanti, hinc]

/-! ### Claim C3: strict-mode resolution failure (corrected) -/

/-- Counterexample to C3 as stated: under `strict`, with an exclude pattern
that accepts every string, the failing input `not a valid url???` still
yields an empty label (the exclude is never consulted) and `outScope` stays
untouched. -/
theorem C3_strict_counterexample :
    ((scopeChecker.inScope true urlParseDemo
        ⟨[⟨"p".data, fun _ => true⟩], [⟨"q".data, fun _ => true⟩]⟩ ⟨0, 0, 0⟩
        "not a valid url???".data).2.1 = []) ∧
    ((scopeChecker.inScope true urlParseDemo
        ⟨[⟨"p".data, fun _ => true⟩], [⟨"q".data, fun _ => true⟩]⟩ ⟨0, 0, 0⟩
        "not a valid url???".data).2.2.outScope = 0) :=
  ⟨by decide, by decide⟩

/-- C3 (amended): a strict-mode resolution failure returns `inScope = false`
with an empty matched label immediately: no include or exclude pattern is
evaluated (the result is the same for every pattern list) and neither the
`inScope` nor the `outScope` counter is incremented — only `total`. -/
theorem C3_strict_amended (urlParse : List Char → Option GoURL)
    (s : scopeChecker) (st : Stats) (input : List Char)
    (h : resolveDomain true urlParse input = none) :
    scopeChecker.inScope true urlParse s st input
      = (false, [], ⟨st.total + 1, st.inScope, st.outScope⟩) := by
  simp [scopeChecker.inScope, h]

/-- Witness for C3 (amended) at the concrete failing input, with patterns
that would accept anything. -/
theorem C3_strict_amended_witness :
    scopeChecker.inScope true urlParseDemo
      ⟨[⟨"p".data, fun _ => true⟩], [⟨"q".data, fun _ => true⟩]⟩ ⟨5, 2, 3⟩
      "not a valid url???".data
      = (false, [], ⟨5 + 1, 2, 3⟩) :=
  C3_strict_amended urlParseDemo
    ⟨[⟨"p".data, fun _ => true⟩], [⟨"q".data, fun _ => true⟩]⟩ ⟨5, 2, 3⟩
    "not a valid url???".data (by decide)

/-! ### Claim C8: URL-likeness and hostname extraction -/

/-- The URL-likeness test described by the specification, stated on the raw
input: contains `://`, or case-insensitively starts with one of the five
scheme markers, or contains `/`, `?` or `#`. -/
def specURLish (s : List Char) : Bool :=
  containsSub s "://".data ||
  "http:".data.isPrefixOf (goToLower s) ||
  "https:".data.isPrefixOf (goToLower s) ||
  "ftp:".data.isPrefixOf (goToLower s) ||
  "ws:".data.isPrefixOf (goToLower s) ||
  "wss:".data.isPrefixOf (goToLower s) ||
  s.contains '/' ||
  s.contains '?' ||
  s.contains '#'

/-- C8: on space-trimmed input (the caller trims every line before the core
sees it), `isURL` agrees exactly with the specification's URL-likeness test;
`http://` is prepended exactly when the input has no `://`; and hostname
extraction fails exactly when the external parse fails or yields an empty
hostname, otherwise the parsed hostname is returned. -/
theorem C8_urlish_and_hostname (s : List Char) (h : goTrimSpace s = s) :
    isURL s = specURLish s ∧
    (containsSub s "://".data = false → withScheme s = "http://".data ++ s) ∧
    (containsSub s "://".data = true → withScheme s = s) ∧
    ∀ urlParse : List Char → Option GoURL,
      (getHostname urlParse s = none ↔
        urlParse (withScheme s) = none ∨
        ∃ u, urlParse (withScheme s) = some u ∧ u.hostname = []) ∧
      (∀ hst, getHostname urlParse s = some hst →
        ∃ u, urlParse (withScheme s) = some u ∧ u.hostname = hst) := by
  refine ⟨?_, ?_, ?_, ?_⟩
  · have ht : goTrimSpace (goToLower s) = goToLower s := by
      rw [goTrimSpace_goToLower, h]
    simp only [isURL, specURLish, ht]
    rw [containsSub_goToLower s _ (by decide),
      contains_goToLower s '/' (by decide),
      contains_goToLower s '?' (by decide),
      contains_goToLower s '#' (by decide)]
  · intro hc
    rw [withScheme, if_neg (by simp [hc])]
  · intro hc
    rw [withScheme, if_pos hc]
  · intro urlParse
    constructor
    · simp only [getHostname]
      cases hp : urlParse (withScheme s) with
      | none => simp
      | some u =>
        by_cases hu : u.hostname = []
        · simp [hu]
        · simp [hu]
    · intro hst hsome
      cases hp : urlParse (withScheme s) with
      | none =>
        simp only [getHostname, hp] at hsome
        cases hsome
      | some u =>
        simp only [getHostname, hp] at hsome
        by_cases hu : u.hostname = []
        · rw [if_pos hu] at hsome; cases hsome
        · rw [if_neg hu] at hsome
          exact ⟨u, rfl, by injection hsome⟩

/-- Witness for C8 at the concrete input `HTTPS://Example.COM:8443/path` and
the stand-in parser. -/
theorem C8_urlish_and_hostname_witness :
    isURL "HTTPS://Example.COM:8443/path".data
      = specURLish "HTTPS://Example.COM:8443/path".data ∧
    (getHostname urlParseDemo "HTTPS://Example.COM:8443/path".data = none ↔
      urlParseDemo (withScheme "HTTPS://Example.COM:8443/path".data) = none ∨
      ∃ u, urlParseDemo (withScheme "HTTPS://Example.COM:8443/path".data)
        = some u ∧ u.hostname = []) :=
  ⟨(C8_urlish_and_hostname "HTTPS://Example.COM:8443/path".data (by decide)).1,
   ((C8_urlish_and_hostname "HTTPS://Example.COM:8443/path".data
      (by decide)).2.2.2 urlParseDemo).1⟩
